import Mathlib

/-!
# Shallow embedding of the coding-interface session state machine

This file embeds the session logic of `coding_interface.py` (the Streamlit
human-coding interface): the session state held in `st.session_state`
(`current_index`, `results`, `coded_ids`, `widget_version`,
`locked_coder_name`), the Save & Continue handler, the Previous / Skip / Go
navigation handlers, and the Load Session (resume import) handler together
with `validate_resume_csv`.

Modelling conventions:
* The catalog (`coding_df`) is represented by its ordered `coding_id`
  column, a `List String`; the session handlers only ever read
  `coding_df.iloc[idx]['coding_id']` and `coding_df['coding_id'].tolist()`,
  the remaining columns are display-only.
* A row of the results store / of the resume CSV is a `Judgment` with the
  columns the handlers read (`coding_id`, `coder_name`, `classification`,
  `notes`); the `coded_at` timestamp column is carried through unchanged by
  every operation and is never branched on, so it is omitted.
* Python's `set` is modelled by `Finset String`.
* Streamlit messages shown by the resume handler are modelled by the
  inductive `ResumeMessage`, each constructor carrying the data interpolated
  into the corresponding f-string.
-/

/-- One row of the in-memory results store (and of a resume CSV): the fields
the `coding_interface.py` handlers read. -/
structure Judgment where
  coding_id : String
  coder_name : String
  classification : String
  notes : String
  deriving DecidableEq

/-- The fixed label list `categories = ['steep', 'flat', 'moderate', 'none']`
offered by the classification radio widget. -/
def categories : List String := ["steep", "flat", "moderate", "none"]

/-- The display-default computation for the classification radio
(`default_idx = 3` unless a previous coding with an in-set classification
exists, lines 344-348 of `coding_interface.py`). -/
def default_idx (previous_coding : Option Judgment) : Nat :=
  match previous_coding with
  | none => 3
  | some p => if p.classification ∈ categories then categories.indexOf p.classification else 3

/-- The per-session state kept in `st.session_state`
(`initialize_session_state` declares exactly these fields). -/
structure SessionState where
  current_index : Nat
  results : List Judgment
  coded_ids : Finset String
  widget_version : Nat
  locked_coder_name : Option String
  deriving DecidableEq

/-- `initialize_session_state` in `coding_interface.py`. -/
def initialize_session_state : SessionState :=
  { current_index := 0
    results := []
    coded_ids := ∅
    widget_version := 0
    locked_coder_name := none }

/-- `get_previous_coding(coding_id, results)`: first result whose
`coding_id` matches, else `None`. -/
def get_previous_coding (coding_id : String) : List Judgment → Option Judgment
  | [] => none
  | r :: rs => if r.coding_id = coding_id then some r else get_previous_coding coding_id rs

/-- The update-or-append loop of the Save & Continue handler (lines 430-440):
find the first index whose `coding_id` matches the new result's and replace
it in place, else append. -/
def upsertResults (result : Judgment) : List Judgment → List Judgment
  | [] => [result]
  | r :: rs =>
      if r.coding_id = result.coding_id then result :: rs
      else r :: upsertResults result rs

/-- The position of the first result whose `coding_id` matches — the `i`
found by the Save & Continue handler's search loop (lines 431-435), i.e.
the insertion-order position of an id's judgment in the results list. -/
def firstIdxOf (cid : String) : List Judgment → Option Nat
  | [] => none
  | r :: rs => if r.coding_id = cid then some 0 else (firstIdxOf cid rs).map (· + 1)

/-- The Save & Continue handler (lines 417-449): lock the coder name on
first save, stamp the (locked) name on the result, update-or-append into
`results`, add the id to `coded_ids`, and advance the cursor when a next
item exists.  `coder_name` is the value of the (possibly disabled) name
input; the handler is only reachable when `current_index < catalog.length`. -/
def save (catalog : List String) (coder_name classification notes : String)
    (s : SessionState) : SessionState :=
  let locked := s.locked_coder_name.getD coder_name
  let coding_id := catalog.getD s.current_index ""
  let result : Judgment :=
    { coding_id := coding_id
      coder_name := locked
      classification := classification
      notes := notes }
  { current_index :=
      if s.current_index < catalog.length - 1 then s.current_index + 1
      else s.current_index
    results := upsertResults result s.results
    coded_ids := insert coding_id s.coded_ids
    widget_version := s.widget_version
    locked_coder_name := some locked }

/-- The Previous button (lines 411-414): `disabled=(current_index == 0)`,
otherwise decrements the cursor. -/
def nav_prev (s : SessionState) : SessionState :=
  if s.current_index = 0 then s
  else { s with current_index := s.current_index - 1 }

/-- The Skip button (lines 451-454):
`disabled=(current_index == total_arguments - 1)`; a disabled button never
fires, so the event is a no-op at the last index, otherwise the cursor is
incremented. -/
def nav_next (catalog : List String) (s : SessionState) : SessionState :=
  if s.current_index = catalog.length - 1 then s
  else { s with current_index := s.current_index + 1 }

/-- The Jump-to / Go control (lines 456-468): the number input enforces
`1 <= jump_to <= total_arguments`, and Go sets `current_index = jump_to - 1`. -/
def nav_goto (catalog : List String) (jump_to : Nat) (s : SessionState) : SessionState :=
  if 1 ≤ jump_to ∧ jump_to ≤ catalog.length then
    { s with current_index := jump_to - 1 }
  else s

/-- A resume CSV as uploaded: the header (`columns`) together with its rows.
`validate_resume_csv` inspects the header; the load handler consumes the
rows. -/
structure ResumeCSV where
  columns : Finset String
  rows : List Judgment
  deriving DecidableEq

/-- The user-visible outcome messages of the resume path, one constructor
per f-string, carrying the interpolated data. -/
inductive ResumeMessage where
  | missingColumns (missing : Finset String)
  | noMatch
  | warningUnmatched (unmatchedCount : Nat)
  | validated (matchingCount : Nat)
  deriving DecidableEq

/-- `required_cols = {'coding_id', 'coder_name', 'classification'}`. -/
def requiredCols : Finset String := {"coding_id", "coder_name", "classification"}

/-- `validate_resume_csv(resume_df, coding_df)` (lines 70-94): returns
`(is_valid, message, matching_ids)`. -/
def validate_resume_csv (resume : ResumeCSV) (catalog : List String) :
    Bool × ResumeMessage × Finset String :=
  if requiredCols ⊆ resume.columns then
    let resume_ids := (resume.rows.map (·.coding_id)).toFinset
    let coding_ids := catalog.toFinset
    let matching_ids := resume_ids ∩ coding_ids
    let unmatched_ids := resume_ids \ coding_ids
    if matching_ids.card = 0 then (false, .noMatch, ∅)
    else if 0 < unmatched_ids.card then
      (true, .warningUnmatched unmatched_ids.card, matching_ids)
    else (true, .validated matching_ids.card, matching_ids)
  else (false, .missingColumns (requiredCols \ resume.columns), ∅)

/-- The `for idx in range(len(coding_df)) ... break` loop of the Load
Session handler (lines 254-259): index of the first catalog id not in
`coded`, `none` when every id is coded. -/
def firstUncoded (coded : Finset String) : List String → Option Nat
  | [] => none
  | id :: rest => if id ∉ coded then some 0 else (firstUncoded coded rest).map (· + 1)

/-- The rows the Load Session handler keeps:
`resume_df[resume_df['coding_id'].isin(matching_ids)]` (line 239). -/
def acceptedRows (resume : ResumeCSV) (catalog : List String) : List Judgment :=
  resume.rows.filter (fun r => r.coding_id ∈ (validate_resume_csv resume catalog).2.2)

/-- The success branch of the Load Session handler (lines 238-263): replace
`results` and `coded_ids` with the accepted rows, set `locked_coder_name`
from the first accepted row (`valid_results[0]`, line 246 — done whenever at
least one row was accepted, with no check that the name is still unset),
bump `widget_version`, and jump to the first uncoded catalog index
(`len(coding_df) - 1` when every item is coded, line 263). -/
def resumedState (catalog : List String) (resume : ResumeCSV) (s : SessionState) :
    SessionState :=
  let valid_results := acceptedRows resume catalog
  let coded := (valid_results.map (·.coding_id)).toFinset
  let locked :=
    match valid_results with
    | [] => s.locked_coder_name
    | r :: _ => some r.coder_name
  let idx :=
    match firstUncoded coded catalog with
    | some i => i
    | none => catalog.length - 1
  { current_index := idx
    results := valid_results
    coded_ids := coded
    widget_version := s.widget_version + 1
    locked_coder_name := locked }

/-- The Load Session button handler (lines 225-266): validate, and on
success install `resumedState`; on a failed validation show the error and
leave the session state untouched.  Returns the new state, whether the load
succeeded, and the message shown. -/
def load_session (catalog : List String) (resume : ResumeCSV) (s : SessionState) :
    SessionState × Bool × ResumeMessage :=
  let v := validate_resume_csv resume catalog
  if v.1 then (resumedState catalog resume s, true, v.2.1)
  else (s, false, v.2.1)

/-- A user action handled by the interface. -/
inductive Event where
  | save (coder_name classification notes : String)
  | prev
  | next
  | goto (jump_to : Nat)
  | resume (csv : ResumeCSV)

/-- One handled event. -/
def step (catalog : List String) (s : SessionState) : Event → SessionState
  | .save cn cl no => save catalog cn cl no s
  | .prev => nav_prev s
  | .next => nav_next catalog s
  | .goto n => nav_goto catalog n s
  | .resume csv => (load_session catalog csv s).1

/-- A whole session: the initial state followed by a sequence of events. -/
def run (catalog : List String) (es : List Event) : SessionState :=
  es.foldl (step catalog) initialize_session_state

/-! ## Helper lemmas about the results store -/

/-- The `coding_id` column of the results store, in insertion order. -/
def resultIds (l : List Judgment) : List String := l.map (·.coding_id)

/-- The store/coverage consistency invariant: `coded_ids` is exactly the set
of `coding_id` values occurring in `results`. -/
def storeConsistent (s : SessionState) : Prop :=
  s.coded_ids = (resultIds s.results).toFinset

/-- An event is duplicate-free when, if it is a resume import, the rows it
would accept carry pairwise-distinct `coding_id` values (non-resume events
impose no condition). -/
def resumeDedup (catalog : List String) : Event → Prop
  | .resume csv => (resultIds (acceptedRows csv catalog)).Nodup
  | _ => True

theorem resultIds_cons (r : Judgment) (rs : List Judgment) :
    resultIds (r :: rs) = r.coding_id :: resultIds rs := rfl

theorem mem_resultIds_upsert {j : Judgment} {l : List Judgment} {x : String}
    (hx : x ∈ resultIds (upsertResults j l)) : x = j.coding_id ∨ x ∈ resultIds l := by
  induction l with
  | nil => simpa [upsertResults, resultIds] using hx
  | cons r rs ih =>
      by_cases h : r.coding_id = j.coding_id
      · simp only [upsertResults, if_pos h, resultIds, List.map_cons, List.mem_cons] at hx ⊢
        tauto
      · simp only [upsertResults, if_neg h, resultIds, List.map_cons, List.mem_cons] at hx ⊢
        rcases hx with hx | hx
        · tauto
        · rcases ih hx with hx | hx <;> tauto

theorem nodup_resultIds_upsert {j : Judgment} {l : List Judgment}
    (h : (resultIds l).Nodup) : (resultIds (upsertResults j l)).Nodup := by
  induction l with
  | nil => simp [upsertResults, resultIds]
  | cons r rs ih =>
      simp only [resultIds, List.map_cons, List.nodup_cons] at h
      by_cases hr : r.coding_id = j.coding_id
      · simp only [upsertResults, if_pos hr, resultIds, List.map_cons, List.nodup_cons]
        exact ⟨hr ▸ h.1, h.2⟩
      · simp only [upsertResults, if_neg hr, resultIds, List.map_cons, List.nodup_cons]
        refine ⟨fun hmem => ?_, ih h.2⟩
        rcases mem_resultIds_upsert hmem with hx | hx
        · exact hr hx
        · exact h.1 hx

theorem filter_coding_id_eq_nil {cid : String} {l : List Judgment}
    (h : cid ∉ resultIds l) : l.filter (fun r => r.coding_id = cid) = [] := by
  induction l with
  | nil => rfl
  | cons r rs ih =>
      simp only [resultIds, List.map_cons, List.mem_cons, not_or] at h
      have hr : ¬ r.coding_id = cid := fun hc => h.1 hc.symm
      simpa [List.filter_cons, hr] using ih h.2

theorem upsert_filter_eq {j : Judgment} {l : List Judgment}
    (h : (resultIds l).Nodup) :
    (upsertResults j l).filter (fun r => r.coding_id = j.coding_id) = [j] := by
  induction l with
  | nil => simp [upsertResults]
  | cons r rs ih =>
      simp only [resultIds, List.map_cons, List.nodup_cons] at h
      by_cases hr : r.coding_id = j.coding_id
      · have : j.coding_id ∉ resultIds rs := fun hm => h.1 (hr ▸ hm)
        simp [upsertResults, if_pos hr, List.filter_cons, filter_coding_id_eq_nil this]
      · simp [upsertResults, if_neg hr, List.filter_cons, hr, ih h.2]

theorem get_previous_coding_upsert (j : Judgment) (l : List Judgment) :
    get_previous_coding j.coding_id (upsertResults j l) = some j := by
  induction l with
  | nil => simp [upsertResults, get_previous_coding]
  | cons r rs ih =>
      by_cases hr : r.coding_id = j.coding_id
      · simp [upsertResults, if_pos hr, get_previous_coding]
      · simp [upsertResults, if_neg hr, get_previous_coding, hr, ih]

theorem firstIdxOf_upsert_some {j : Judgment} {l : List Judgment} {i : Nat}
    (h : firstIdxOf j.coding_id l = some i) :
    firstIdxOf j.coding_id (upsertResults j l) = some i := by
  induction l generalizing i with
  | nil => simp [firstIdxOf] at h
  | cons r rs ih =>
      by_cases hr : r.coding_id = j.coding_id
      · simp only [firstIdxOf, if_pos hr] at h
        simp [upsertResults, if_pos hr, firstIdxOf, ← h]
      · simp only [firstIdxOf, if_neg hr] at h
        rcases Option.map_eq_some'.mp h with ⟨i0, hi0, rfl⟩
        simp [upsertResults, if_neg hr, firstIdxOf, hr, ih hi0]

theorem upsert_of_firstIdxOf_none {j : Judgment} {l : List Judgment}
    (h : firstIdxOf j.coding_id l = none) : upsertResults j l = l ++ [j] := by
  induction l with
  | nil => rfl
  | cons r rs ih =>
      by_cases hr : r.coding_id = j.coding_id
      · simp [firstIdxOf, if_pos hr] at h
      · simp only [firstIdxOf, if_neg hr, Option.map_eq_none'] at h
        simp [upsertResults, if_neg hr, ih h]

theorem firstIdxOf_append_singleton (j : Judgment) (l : List Judgment)
    (h : firstIdxOf j.coding_id l = none) :
    firstIdxOf j.coding_id (l ++ [j]) = some l.length := by
  induction l with
  | nil => simp [firstIdxOf]
  | cons r rs ih =>
      by_cases hr : r.coding_id = j.coding_id
      · simp [firstIdxOf, if_pos hr] at h
      · simp only [firstIdxOf, if_neg hr, Option.map_eq_none'] at h
        simp [firstIdxOf, if_neg hr, ih h, List.length_cons]

theorem resultIds_toFinset_upsert (j : Judgment) (l : List Judgment) :
    (resultIds (upsertResults j l)).toFinset = insert j.coding_id (resultIds l).toFinset := by
  induction l with
  | nil => simp [upsertResults, resultIds]
  | cons r rs ih =>
      by_cases hr : r.coding_id = j.coding_id
      · simp [upsertResults, if_pos hr, resultIds, hr]
      · simp only [upsertResults, if_neg hr, resultIds_cons, List.toFinset_cons, ih]
        exact Finset.Insert.comm _ _ _

/-! ## Helper lemmas about the resume path -/

theorem firstUncoded_spec_some {coded : Finset String} {catalog : List String} {i : Nat}
    (h : firstUncoded coded catalog = some i) :
    i < catalog.length ∧ catalog.getD i "" ∉ coded ∧ ∀ j < i, catalog.getD j "" ∈ coded := by
  induction catalog generalizing i with
  | nil => simp [firstUncoded] at h
  | cons id rest ih =>
      by_cases hid : id ∉ coded
      · simp only [firstUncoded, if_pos hid, Option.some.injEq] at h
        subst h
        exact ⟨Nat.succ_pos _, hid, fun j hj => absurd hj (Nat.not_lt_zero j)⟩
      · simp only [firstUncoded, if_neg hid] at h
        rcases Option.map_eq_some'.mp h with ⟨i0, hi0, rfl⟩
        obtain ⟨h1, h2, h3⟩ := ih hi0
        refine ⟨by simpa using Nat.succ_lt_succ h1, by simpa using h2, ?_⟩
        intro j hj
        cases j with
        | zero => simpa using not_not.mp hid
        | succ j0 => simpa using h3 j0 (Nat.lt_of_succ_lt_succ hj)

theorem firstUncoded_spec_none {coded : Finset String} {catalog : List String}
    (h : firstUncoded coded catalog = none) : ∀ id ∈ catalog, id ∈ coded := by
  induction catalog with
  | nil => simp
  | cons id rest ih =>
      by_cases hid : id ∉ coded
      · simp [firstUncoded, if_pos hid] at h
      · simp only [firstUncoded, if_neg hid, Option.map_eq_none'] at h
        intro x hx
        rcases List.mem_cons.mp hx with rfl | hx
        · exact not_not.mp hid
        · exact ih h x hx

theorem validate_valid_iff (resume : ResumeCSV) (catalog : List String) :
    (validate_resume_csv resume catalog).1 = true ↔
      requiredCols ⊆ resume.columns ∧
      ((resume.rows.map (·.coding_id)).toFinset ∩ catalog.toFinset).Nonempty := by
  simp only [validate_resume_csv]
  split_ifs with h1 h2 h3 <;>
    simp_all [Finset.card_eq_zero, ← Finset.nonempty_iff_ne_empty]

theorem validate_matching_of_valid {resume : ResumeCSV} {catalog : List String}
    (h : (validate_resume_csv resume catalog).1 = true) :
    (validate_resume_csv resume catalog).2.2 =
      (resume.rows.map (·.coding_id)).toFinset ∩ catalog.toFinset := by
  obtain ⟨h1, h2⟩ := (validate_valid_iff resume catalog).mp h
  simp only [validate_resume_csv]
  split_ifs with hs h3 h4 <;>
    simp_all [Finset.card_eq_zero, ← Finset.nonempty_iff_ne_empty]

theorem load_session_of_valid {resume : ResumeCSV} {catalog : List String}
    (s : SessionState) (h : (validate_resume_csv resume catalog).1 = true) :
    load_session catalog resume s =
      (resumedState catalog resume s, true, (validate_resume_csv resume catalog).2.1) := by
  simp [load_session, h]

theorem load_session_of_invalid {resume : ResumeCSV} {catalog : List String}
    (s : SessionState) (h : (validate_resume_csv resume catalog).1 = false) :
    load_session catalog resume s =
      (s, false, (validate_resume_csv resume catalog).2.1) := by
  simp [load_session, h]

theorem load_session_fst_valid {resume : ResumeCSV} {catalog : List String}
    {s : SessionState} (h : (load_session catalog resume s).2.1 = true) :
    (validate_resume_csv resume catalog).1 = true := by
  by_cases hv : (validate_resume_csv resume catalog).1 = true
  · exact hv
  · rw [load_session_of_invalid s (Bool.not_eq_true _ ▸ hv)] at h
    simp at h

/-! ## Step-preservation lemmas -/

theorem foldl_step_preserve (catalog : List String) (P : SessionState → Prop)
    (es : List Event) (hstep : ∀ s e, e ∈ es → P s → P (step catalog s e)) :
    ∀ s, P s → P (es.foldl (step catalog) s) := by
  induction es with
  | nil => intro s hs; simpa using hs
  | cons e rest ih =>
      intro s hs
      simp only [List.foldl_cons]
      exact ih (fun s' e' he' => hstep s' e' (List.mem_cons_of_mem _ he')) _
        (hstep s e (List.mem_cons_self _ _) hs)

theorem step_current_index_lt (catalog : List String) (hcat : catalog ≠ [])
    (s : SessionState) (e : Event) (hs : s.current_index < catalog.length) :
    (step catalog s e).current_index < catalog.length := by
  have hlen : 0 < catalog.length := List.length_pos.mpr hcat
  cases e with
  | save cn cl no =>
      simp only [step, save]
      split_ifs with h <;> simp <;> omega
  | prev =>
      simp only [step, nav_prev]
      split_ifs with h <;> simp <;> omega
  | next =>
      simp only [step, nav_next]
      split_ifs with h <;> simp <;> omega
  | goto n =>
      simp only [step, nav_goto]
      split_ifs with h <;> simp <;> omega
  | resume csv =>
      simp only [step, load_session]
      split_ifs with h
      · simp only [resumedState]
        cases hfu : firstUncoded ((acceptedRows csv catalog).map (·.coding_id)).toFinset
            catalog with
        | some i => simpa [hfu] using (firstUncoded_spec_some hfu).1
        | none => simp [hfu]; omega
      · exact hs

theorem resumedState_results (catalog : List String) (resume : ResumeCSV)
    (s : SessionState) :
    (resumedState catalog resume s).results = acceptedRows resume catalog := rfl

theorem resumedState_coded_ids (catalog : List String) (resume : ResumeCSV)
    (s : SessionState) :
    (resumedState catalog resume s).coded_ids =
      (resultIds (acceptedRows resume catalog)).toFinset := rfl

theorem resumedState_index (catalog : List String) (resume : ResumeCSV)
    (s : SessionState) :
    (resumedState catalog resume s).current_index =
      match firstUncoded (resumedState catalog resume s).coded_ids catalog with
      | some i => i
      | none => catalog.length - 1 := rfl

theorem resumedState_locked {catalog : List String} {resume : ResumeCSV}
    (s : SessionState) {r : Judgment} {rs : List Judgment}
    (h : acceptedRows resume catalog = r :: rs) :
    (resumedState catalog resume s).locked_coder_name = some r.coder_name := by
  simp [resumedState, h]

theorem step_storeConsistent (catalog : List String) (s : SessionState) (e : Event)
    (hs : storeConsistent s) : storeConsistent (step catalog s e) := by
  cases e with
  | save cn cl no =>
      unfold storeConsistent at hs ⊢
      simp only [step, save, resultIds_toFinset_upsert, hs]
  | prev =>
      unfold storeConsistent at hs ⊢
      simp only [step, nav_prev]
      split_ifs <;> simpa using hs
  | next =>
      unfold storeConsistent at hs ⊢
      simp only [step, nav_next]
      split_ifs <;> simpa using hs
  | goto n =>
      unfold storeConsistent at hs ⊢
      simp only [step, nav_goto]
      split_ifs <;> simpa using hs
  | resume csv =>
      by_cases hv : (validate_resume_csv csv catalog).1 = true
      · simp only [step, load_session_of_valid s hv]
        exact rfl
      · have hv' : (validate_resume_csv csv catalog).1 = false := by
          simpa using hv
        simp only [step, load_session_of_invalid s hv']
        exact hs

theorem step_nodup (catalog : List String) (s : SessionState) (e : Event)
    (he : resumeDedup catalog e) (hs : (resultIds s.results).Nodup) :
    (resultIds (step catalog s e).results).Nodup := by
  cases e with
  | save cn cl no => exact nodup_resultIds_upsert hs
  | prev =>
      simp only [step, nav_prev]
      split_ifs <;> simpa using hs
  | next =>
      simp only [step, nav_next]
      split_ifs <;> simpa using hs
  | goto n =>
      simp only [step, nav_goto]
      split_ifs <;> simpa using hs
  | resume csv =>
      by_cases hv : (validate_resume_csv csv catalog).1 = true
      · simp only [step, load_session_of_valid s hv, resumedState_results]
        exact he
      · have hv' : (validate_resume_csv csv catalog).1 = false := by
          simpa using hv
        simp only [step, load_session_of_invalid s hv']
        exact hs

theorem filter_length_le_one_of_nodup {l : List Judgment}
    (h : (resultIds l).Nodup) (cid : String) :
    (l.filter (fun r => r.coding_id = cid)).length ≤ 1 := by
  induction l with
  | nil => simp
  | cons r rs ih =>
      simp only [resultIds_cons, List.nodup_cons] at h
      by_cases hr : r.coding_id = cid
      · have hmem : cid ∉ resultIds rs := hr ▸ h.1
        simp [List.filter_cons, hr, filter_coding_id_eq_nil hmem]
      · simpa [List.filter_cons, hr] using ih h.2

theorem validate_msg_of_unmatched {resume : ResumeCSV} {catalog : List String}
    (hsub : requiredCols ⊆ resume.columns)
    (hmatch : ((resume.rows.map (·.coding_id)).toFinset ∩ catalog.toFinset).Nonempty)
    (hun : ((resume.rows.map (·.coding_id)).toFinset \ catalog.toFinset).Nonempty) :
    (validate_resume_csv resume catalog).2.1 =
      .warningUnmatched ((resume.rows.map (·.coding_id)).toFinset \ catalog.toFinset).card := by
  simp only [validate_resume_csv]
  rw [if_pos hsub]
  have h1 : ¬ ((resume.rows.map (·.coding_id)).toFinset ∩ catalog.toFinset).card = 0 := by
    simp [Finset.card_eq_zero, ← Finset.nonempty_iff_ne_empty, hmatch]
  have h2 : 0 < ((resume.rows.map (·.coding_id)).toFinset \ catalog.toFinset).card :=
    Finset.card_pos.mpr hun
  rw [if_neg h1, if_pos h2]

/-! ## Claims -/

/-- C1 counterexample: a successful resume import whose input contains two
rows with the same `coding_id` ("I1") leaves two judgments with that
`item_id` in the store — the Load Session handler filters rows only by id
membership and never deduplicates. -/
theorem c1_counterexample :
    (load_session ["I1", "I2"]
        ⟨{"coding_id", "coder_name", "classification"},
         [⟨"I1", "Bob", "steep", ""⟩, ⟨"I1", "Bob", "flat", ""⟩]⟩
        initialize_session_state).2.1 = true ∧
    ((load_session ["I1", "I2"]
        ⟨{"coding_id", "coder_name", "classification"},
         [⟨"I1", "Bob", "steep", ""⟩, ⟨"I1", "Bob", "flat", ""⟩]⟩
        initialize_session_state).1.results.filter
      (fun r => r.coding_id = "I1")).length = 2 := by decide

/-- C1 (amended): after any sequence of save, navigation, and resume-import
operations in which every resume import's accepted rows carry pairwise
distinct `coding_id` values, the judgment store holds at most one judgment
per `item_id`; a resume import whose input repeats an accepted `coding_id`
does leave duplicates (see the counterexample). -/
theorem c1_amended (catalog : List String) (es : List Event)
    (h : ∀ e ∈ es, resumeDedup catalog e) (cid : String) :
    ((run catalog es).results.filter (fun r => r.coding_id = cid)).length ≤ 1 := by
  have hnodup : (resultIds (run catalog es).results).Nodup := by
    unfold run
    exact foldl_step_preserve catalog (fun st => (resultIds st.results).Nodup) es
      (fun st e he hs => step_nodup catalog st e (h e he) hs)
      initialize_session_state (by simp [initialize_session_state, resultIds])
  exact filter_length_le_one_of_nodup hnodup cid

/-- C1 witness: concrete session (one save, then a duplicate-free resume
import) in which the store holds at most one judgment for "I1". -/
theorem c1_witness :
    ((run ["I1", "I2"]
        [.save "Alice" "steep" "x",
         .resume ⟨{"coding_id", "coder_name", "classification"},
                  [⟨"I1", "Bob", "flat", ""⟩]⟩]).results.filter
      (fun r => r.coding_id = "I1")).length ≤ 1 :=
  c1_amended ["I1", "I2"]
    [.save "Alice" "steep" "x",
     .resume ⟨{"coding_id", "coder_name", "classification"},
              [⟨"I1", "Bob", "flat", ""⟩]⟩]
    (by
      intro e he
      rcases List.mem_cons.mp he with rfl | he
      · trivial
      · rcases List.mem_cons.mp he with rfl | he
        · show (resultIds (acceptedRows _ _)).Nodup
          decide
        · cases he) "I1"

/-- C2: a save on the item under the cursor leaves exactly one judgment for
that `item_id` in the store, whose fields are exactly those of this (last)
save, and the judgment keeps its insertion-order position: if the id already
had a judgment at position `i` it stays at `i`, otherwise it is appended at
the end.  The at-most-one-per-id hypothesis holds in every session whose
resume imports were duplicate-free (C1), in particular in save-and-navigate
sessions. -/
theorem c2_overwrite (catalog : List String) (cn cl no : String) (s : SessionState)
    (hnodup : (resultIds s.results).Nodup)
    (hidx : s.current_index < catalog.length) :
    ((save catalog cn cl no s).results.filter
        (fun r => r.coding_id = catalog.getD s.current_index "")) =
      [⟨catalog.getD s.current_index "", s.locked_coder_name.getD cn, cl, no⟩] ∧
    (∀ i, firstIdxOf (catalog.getD s.current_index "") s.results = some i →
      firstIdxOf (catalog.getD s.current_index "")
        (save catalog cn cl no s).results = some i) ∧
    (firstIdxOf (catalog.getD s.current_index "") s.results = none →
      firstIdxOf (catalog.getD s.current_index "")
        (save catalog cn cl no s).results = some s.results.length) := by
  refine ⟨?_, ?_, ?_⟩
  · simpa [save] using upsert_filter_eq
      (j := ⟨catalog.getD s.current_index "", s.locked_coder_name.getD cn, cl, no⟩) hnodup
  · intro i hi
    simpa [save] using firstIdxOf_upsert_some
      (j := ⟨catalog.getD s.current_index "", s.locked_coder_name.getD cn, cl, no⟩) hi
  · intro hnone
    have h1 := upsert_of_firstIdxOf_none
      (j := ⟨catalog.getD s.current_index "", s.locked_coder_name.getD cn, cl, no⟩) hnone
    have h2 := firstIdxOf_append_singleton
      ⟨catalog.getD s.current_index "", s.locked_coder_name.getD cn, cl, no⟩ s.results hnone
    simp only [save]
    rw [h1]
    exact h2

/-- C2 witness: saving "flat" for item "I1" in a fresh two-item session
leaves exactly the one judgment `("I1", "Alice", "flat", "note")` in the
store. -/
theorem c2_witness :
    ((save ["I1", "I2"] "Alice" "flat" "note" initialize_session_state).results.filter
        (fun r => r.coding_id = "I1")) =
      [⟨"I1", "Alice", "flat", "note"⟩] := by
  simpa [initialize_session_state] using
    (c2_overwrite ["I1", "I2"] "Alice" "flat" "note" initialize_session_state
      (by decide) (by decide)).1

/-- C3 counterexample: the first save locks the coder name to "Alice", but a
later successful resume import unconditionally replaces the locked name with
the first accepted row's coder name "Bob" — the handler never checks whether
the identity is still unset. -/
theorem c3_counterexample :
    (run ["I1", "I2"] [.save "Alice" "steep" ""]).locked_coder_name = some "Alice" ∧
    (run ["I1", "I2"]
        [.save "Alice" "steep" "",
         .resume ⟨{"coding_id", "coder_name", "classification"},
                  [⟨"I1", "Bob", "moderate", ""⟩]⟩]).locked_coder_name = some "Bob" := by
  decide

/-- C3 (amended): once the coder identity is locked, no save changes it and
every later save stamps the locked name regardless of the name entered in
the input field; a later successful resume import, however, always re-locks
the identity to the `coder_name` of its first accepted row, replacing an
already-locked name. -/
theorem c3_amended (catalog : List String) (cn cl no : String) (s : SessionState)
    (n : String) (hlock : s.locked_coder_name = some n) (resume : ResumeCSV)
    (r : Judgment) (rs : List Judgment)
    (hacc : acceptedRows resume catalog = r :: rs)
    (hvalid : (validate_resume_csv resume catalog).1 = true) :
    (save catalog cn cl no s).locked_coder_name = some n ∧
    get_previous_coding (catalog.getD s.current_index "")
        (save catalog cn cl no s).results =
      some ⟨catalog.getD s.current_index "", n, cl, no⟩ ∧
    (load_session catalog resume s).1.locked_coder_name = some r.coder_name := by
  refine ⟨?_, ?_, ?_⟩
  · simp [save, hlock]
  · simpa [save, hlock] using get_previous_coding_upsert
      ⟨catalog.getD s.current_index "", s.locked_coder_name.getD cn, cl, no⟩ s.results
  · rw [load_session_of_valid s hvalid]
    exact resumedState_locked s hacc

/-- C3 witness: with the identity locked to "Alice", a save entered as
"Mallory" keeps and stamps "Alice", while a successful resume import with
first accepted row by "Bob" re-locks to "Bob". -/
theorem c3_witness :
    (save ["I1"] "Mallory" "flat" "" ⟨0, [], ∅, 0, some "Alice"⟩).locked_coder_name
      = some "Alice" ∧
    get_previous_coding "I1"
        (save ["I1"] "Mallory" "flat" "" ⟨0, [], ∅, 0, some "Alice"⟩).results =
      some ⟨"I1", "Alice", "flat", ""⟩ ∧
    (load_session ["I1"]
        ⟨{"coding_id", "coder_name", "classification"}, [⟨"I1", "Bob", "moderate", ""⟩]⟩
        ⟨0, [], ∅, 0, some "Alice"⟩).1.locked_coder_name = some "Bob" := by
  simpa using c3_amended ["I1"] "Mallory" "flat" "" ⟨0, [], ∅, 0, some "Alice"⟩
    "Alice" rfl
    ⟨{"coding_id", "coder_name", "classification"}, [⟨"I1", "Bob", "moderate", ""⟩]⟩
    ⟨"I1", "Bob", "moderate", ""⟩ [] (by decide) (by decide)

/-- C4 counterexample: resuming a one-item catalog from a file that codes
every item succeeds and leaves the cursor at `len(catalog) - 1 = 0` (the
last item), not at `len(catalog) = 1` as the claim's EXHAUSTED state
requires. -/
theorem c4_counterexample :
    (load_session ["I1"]
        ⟨{"coding_id", "coder_name", "classification"}, [⟨"I1", "Bob", "moderate", ""⟩]⟩
        initialize_session_state).2.1 = true ∧
    (∀ id ∈ ["I1"],
      id ∈ (load_session ["I1"]
        ⟨{"coding_id", "coder_name", "classification"}, [⟨"I1", "Bob", "moderate", ""⟩]⟩
        initialize_session_state).1.coded_ids) ∧
    (load_session ["I1"]
        ⟨{"coding_id", "coder_name", "classification"}, [⟨"I1", "Bob", "moderate", ""⟩]⟩
        initialize_session_state).1.current_index ≠ (["I1"] : List String).length ∧
    (load_session ["I1"]
        ⟨{"coding_id", "coder_name", "classification"}, [⟨"I1", "Bob", "moderate", ""⟩]⟩
        initialize_session_state).1.current_index = (["I1"] : List String).length - 1 := by
  decide

/-- C4 (amended): after every successful resume import the cursor equals the
index of the first catalog item with no judgment (an index below every coded
prefix position); when every catalog item has a judgment the cursor equals
`len(catalog) - 1` (the last item) rather than `len(catalog)`. -/
theorem c4_amended (catalog : List String) (resume : ResumeCSV) (s : SessionState)
    (h : (load_session catalog resume s).2.1 = true) :
    (∀ i, firstUncoded (load_session catalog resume s).1.coded_ids catalog = some i →
      (load_session catalog resume s).1.current_index = i ∧ i < catalog.length ∧
      catalog.getD i "" ∉ (load_session catalog resume s).1.coded_ids ∧
      ∀ j < i, catalog.getD j "" ∈ (load_session catalog resume s).1.coded_ids) ∧
    (firstUncoded (load_session catalog resume s).1.coded_ids catalog = none →
      (load_session catalog resume s).1.current_index = catalog.length - 1 ∧
      ∀ id ∈ catalog, id ∈ (load_session catalog resume s).1.coded_ids) := by
  have hv := load_session_fst_valid h
  simp only [load_session_of_valid s hv]
  constructor
  · intro i hi
    obtain ⟨h1, h2, h3⟩ := firstUncoded_spec_some hi
    refine ⟨?_, h1, h2, h3⟩
    rw [resumedState_index]
    simp [hi]
  · intro hnone
    refine ⟨?_, firstUncoded_spec_none hnone⟩
    rw [resumedState_index]
    simp [hnone]

/-- C4 witness: resuming a two-item catalog with item "I1" coded puts the
cursor on index 1, the first uncoded item. -/
theorem c4_witness :
    (load_session ["I1", "I2"]
        ⟨{"coding_id", "coder_name", "classification"}, [⟨"I1", "Bob", "moderate", ""⟩]⟩
        initialize_session_state).1.current_index = 1 ∧
    (1 : Nat) < (["I1", "I2"] : List String).length ∧
    (["I1", "I2"] : List String).getD 1 "" ∉
      (load_session ["I1", "I2"]
        ⟨{"coding_id", "coder_name", "classification"}, [⟨"I1", "Bob", "moderate", ""⟩]⟩
        initialize_session_state).1.coded_ids ∧
    ∀ j < 1, (["I1", "I2"] : List String).getD j "" ∈
      (load_session ["I1", "I2"]
        ⟨{"coding_id", "coder_name", "classification"}, [⟨"I1", "Bob", "moderate", ""⟩]⟩
        initialize_session_state).1.coded_ids :=
  (c4_amended ["I1", "I2"]
    ⟨{"coding_id", "coder_name", "classification"}, [⟨"I1", "Bob", "moderate", ""⟩]⟩
    initialize_session_state (by decide)).1 1 (by decide)

/-- C5: a save on the item under the cursor records its judgment (readable
back via `get_previous_coding`), marks the id coded, and — in the same
atomic handler call — advances the cursor by exactly one when a next item
exists, while on the last item the cursor stays in place. -/
theorem c5_save_step (catalog : List String) (cn cl no : String) (s : SessionState)
    (hidx : s.current_index < catalog.length) :
    get_previous_coding (catalog.getD s.current_index "")
        (save catalog cn cl no s).results =
      some ⟨catalog.getD s.current_index "", s.locked_coder_name.getD cn, cl, no⟩ ∧
    catalog.getD s.current_index "" ∈ (save catalog cn cl no s).coded_ids ∧
    (s.current_index < catalog.length - 1 →
      (save catalog cn cl no s).current_index = s.current_index + 1) ∧
    (s.current_index = catalog.length - 1 →
      (save catalog cn cl no s).current_index = s.current_index) := by
  refine ⟨?_, ?_, ?_, ?_⟩
  · simpa [save] using get_previous_coding_upsert
      ⟨catalog.getD s.current_index "", s.locked_coder_name.getD cn, cl, no⟩ s.results
  · simp [save]
  · intro h
    simp [save, h]
  · intro h
    simp [save, h]

/-- C5 witness: in a fresh two-item session a save on "I1" records the
judgment and moves the cursor to 1; a save on the last item (index 1)
records and stays at 1. -/
theorem c5_witness :
    get_previous_coding "I1"
        (save ["I1", "I2"] "Alice" "steep" "" initialize_session_state).results =
      some ⟨"I1", "Alice", "steep", ""⟩ ∧
    (save ["I1", "I2"] "Alice" "steep" "" initialize_session_state).current_index = 1 ∧
    (save ["I1", "I2"] "Alice" "flat" "" ⟨1, [], ∅, 0, none⟩).current_index = 1 := by
  refine ⟨?_, ?_, ?_⟩
  · simpa [initialize_session_state] using
      (c5_save_step ["I1", "I2"] "Alice" "steep" "" initialize_session_state (by decide)).1
  · simpa [initialize_session_state] using
      (c5_save_step ["I1", "I2"] "Alice" "steep" "" initialize_session_state
        (by decide)).2.2.1 (by decide)
  · simpa using
      (c5_save_step ["I1", "I2"] "Alice" "flat" "" ⟨1, [], ∅, 0, none⟩
        (by decide)).2.2.2 (by decide)

/-- C6 counterexample: two NEXT events bring the cursor of a three-item
catalog to the last index 2, but a further NEXT is not accepted — the Skip
button is disabled at the last index — so the cursor stays at 2 instead of
transitioning to EXHAUSTED with cursor 3. -/
theorem c6_counterexample :
    (run ["I1", "I2", "I3"] [.next, .next]).current_index = 2 ∧
    (run ["I1", "I2", "I3"] [.next, .next, .next]).current_index = 2 := by
  decide

/-- C6 (amended): a NEXT event at the last index of a non-empty catalog is
rejected (the Skip button is disabled there) and leaves the state unchanged;
consequently the cursor stays strictly below `len(catalog)` after every
event sequence — the `cursor = len(catalog)` EXHAUSTED state is never
reached by navigation. -/
theorem c6_amended (catalog : List String) (s : SessionState) (es : List Event)
    (hcat : catalog ≠ []) :
    (s.current_index = catalog.length - 1 → nav_next catalog s = s) ∧
    (run catalog es).current_index < catalog.length := by
  constructor
  · intro h
    simp [nav_next, h]
  · unfold run
    exact foldl_step_preserve catalog (fun st => st.current_index < catalog.length) es
      (fun st e _ hst => step_current_index_lt catalog hcat st e hst)
      initialize_session_state
      (by simpa [initialize_session_state] using List.length_pos.mpr hcat)

/-- C6 witness: in a three-item catalog, NEXT at the last index leaves the
state unchanged, and after three NEXT events the cursor is still below 3. -/
theorem c6_witness :
    nav_next ["I1", "I2", "I3"] ⟨2, [], ∅, 0, none⟩ = ⟨2, [], ∅, 0, none⟩ ∧
    (run ["I1", "I2", "I3"] [.next, .next, .next]).current_index
      < (["I1", "I2", "I3"] : List String).length :=
  ⟨(c6_amended ["I1", "I2", "I3"] ⟨2, [], ∅, 0, none⟩ [.next, .next, .next]
      (by decide)).1 (by decide),
   (c6_amended ["I1", "I2", "I3"] ⟨2, [], ∅, 0, none⟩ [.next, .next, .next]
      (by decide)).2⟩

/-- C7: a resume import that fails validation — because a required column
from {coding_id, coder_name, classification} is missing (the error message
naming exactly the missing columns) or because no input id overlaps the
catalog — leaves the whole session state (store, coded-id set, cursor,
locked name) exactly as it was. -/
theorem c7_invalid_import (catalog : List String) (resume : ResumeCSV) (s : SessionState) :
    ((load_session catalog resume s).2.1 = false → (load_session catalog resume s).1 = s) ∧
    (¬ requiredCols ⊆ resume.columns →
      (load_session catalog resume s).2 =
        (false, .missingColumns (requiredCols \ resume.columns)) ∧
      (requiredCols \ resume.columns).Nonempty ∧
      ∀ c, c ∈ requiredCols \ resume.columns ↔ (c ∈ requiredCols ∧ c ∉ resume.columns)) ∧
    (requiredCols ⊆ resume.columns →
      (resume.rows.map (·.coding_id)).toFinset ∩ catalog.toFinset = ∅ →
      (load_session catalog resume s).2 = (false, .noMatch)) := by
  refine ⟨?_, ?_, ?_⟩
  · intro h
    by_cases hv : (validate_resume_csv resume catalog).1 = true
    · rw [load_session_of_valid s hv] at h
      simp at h
    · simp [load_session_of_invalid s (by simpa using hv)]
  · intro h
    have hval : validate_resume_csv resume catalog =
        (false, .missingColumns (requiredCols \ resume.columns), ∅) := by
      simp only [validate_resume_csv]
      rw [if_neg h]
    refine ⟨?_, Finset.sdiff_nonempty.mpr h, fun c => Finset.mem_sdiff⟩
    rw [load_session_of_invalid s (by rw [hval])]
    simp [hval]
  · intro hsub hempty
    have hval : validate_resume_csv resume catalog = (false, .noMatch, ∅) := by
      simp only [validate_resume_csv]
      rw [if_pos hsub]
      simp [hempty]
    rw [load_session_of_invalid s (by rw [hval])]
    simp [hval]

/-- C7 witness: a resume file lacking the coder_name and classification
columns is rejected with a message naming exactly those columns and leaves
the state unchanged; a well-formed resume file with zero overlapping ids is
rejected with the no-match error and also leaves the state unchanged. -/
theorem c7_witness :
    (load_session ["I1"] ⟨{"coding_id"}, [⟨"I1", "Bob", "flat", ""⟩]⟩
        ⟨0, [⟨"I1", "Alice", "steep", ""⟩], {"I1"}, 0, some "Alice"⟩).1 =
      ⟨0, [⟨"I1", "Alice", "steep", ""⟩], {"I1"}, 0, some "Alice"⟩ ∧
    (load_session ["I1"] ⟨{"coding_id"}, [⟨"I1", "Bob", "flat", ""⟩]⟩
        ⟨0, [⟨"I1", "Alice", "steep", ""⟩], {"I1"}, 0, some "Alice"⟩).2 =
      (false, .missingColumns (requiredCols \ {"coding_id"})) ∧
    (load_session ["I1"]
        ⟨{"coding_id", "coder_name", "classification"}, [⟨"I9", "Bob", "flat", ""⟩]⟩
        ⟨0, [⟨"I1", "Alice", "steep", ""⟩], {"I1"}, 0, some "Alice"⟩).1 =
      ⟨0, [⟨"I1", "Alice", "steep", ""⟩], {"I1"}, 0, some "Alice"⟩ ∧
    (load_session ["I1"]
        ⟨{"coding_id", "coder_name", "classification"}, [⟨"I9", "Bob", "flat", ""⟩]⟩
        ⟨0, [⟨"I1", "Alice", "steep", ""⟩], {"I1"}, 0, some "Alice"⟩).2 =
      (false, .noMatch) :=
  ⟨(c7_invalid_import ["I1"] ⟨{"coding_id"}, [⟨"I1", "Bob", "flat", ""⟩]⟩
      ⟨0, [⟨"I1", "Alice", "steep", ""⟩], {"I1"}, 0, some "Alice"⟩).1 (by decide),
   ((c7_invalid_import ["I1"] ⟨{"coding_id"}, [⟨"I1", "Bob", "flat", ""⟩]⟩
      ⟨0, [⟨"I1", "Alice", "steep", ""⟩], {"I1"}, 0, some "Alice"⟩).2.1 (by decide)).1,
   (c7_invalid_import ["I1"]
      ⟨{"coding_id", "coder_name", "classification"}, [⟨"I9", "Bob", "flat", ""⟩]⟩
      ⟨0, [⟨"I1", "Alice", "steep", ""⟩], {"I1"}, 0, some "Alice"⟩).1 (by decide),
   (c7_invalid_import ["I1"]
      ⟨{"coding_id", "coder_name", "classification"}, [⟨"I9", "Bob", "flat", ""⟩]⟩
      ⟨0, [⟨"I1", "Alice", "steep", ""⟩], {"I1"}, 0, some "Alice"⟩).2.2 (by decide)
      (by decide)⟩

/-- C8 counterexample: resuming a one-item catalog from a file with one
matching row and two rows carrying the absent id "I9" succeeds, but the
rejected count reported to the user is 1 — the handler counts distinct
unmatched ids, not input rows (2 rows have an id absent from the catalog). -/
theorem c8_counterexample :
    (load_session ["I1"]
        ⟨{"coding_id", "coder_name", "classification"},
         [⟨"I1", "Bob", "flat", ""⟩, ⟨"I9", "Bob", "flat", "a"⟩, ⟨"I9", "Bob", "flat", "b"⟩]⟩
        initialize_session_state).2 = (true, .warningUnmatched 1) ∧
    (([⟨"I1", "Bob", "flat", ""⟩, ⟨"I9", "Bob", "flat", "a"⟩,
        ⟨"I9", "Bob", "flat", "b"⟩] : List Judgment).filter
      (fun r => r.coding_id ∉ (["I1"] : List String))).length = 2 := by
  decide

/-- C8 (amended): after every successful resume import each stored
judgment's `item_id` lies in the catalog, and the number of stored judgments
equals the number of input rows whose id is in the catalog; the rejected
count reported to the user equals the number of DISTINCT input ids absent
from the catalog (which differs from the number of absent rows when an
absent id repeats — see the counterexample). -/
theorem c8_amended (catalog : List String) (resume : ResumeCSV) (s : SessionState)
    (h : (load_session catalog resume s).2.1 = true) :
    (∀ j ∈ (load_session catalog resume s).1.results, j.coding_id ∈ catalog) ∧
    (load_session catalog resume s).1.results.length =
      (resume.rows.filter (fun r => r.coding_id ∈ catalog.toFinset)).length ∧
    (((resume.rows.map (·.coding_id)).toFinset \ catalog.toFinset).Nonempty →
      (load_session catalog resume s).2.2 =
        .warningUnmatched
          ((resume.rows.map (·.coding_id)).toFinset \ catalog.toFinset).card) := by
  have hv := load_session_fst_valid h
  have hm := validate_matching_of_valid hv
  refine ⟨?_, ?_, ?_⟩
  · intro j hj
    simp only [load_session_of_valid s hv, resumedState_results, acceptedRows] at hj
    rw [List.mem_filter] at hj
    have h2 : j.coding_id ∈ (validate_resume_csv resume catalog).2.2 := by
      simpa using hj.2
    rw [hm] at h2
    exact List.mem_toFinset.mp (Finset.mem_inter.mp h2).2
  · simp only [load_session_of_valid s hv, resumedState_results, acceptedRows]
    congr 1
    apply List.filter_congr
    intro r hr
    rw [hm]
    have hmem : r.coding_id ∈ (resume.rows.map (·.coding_id)).toFinset := by
      rw [List.mem_toFinset]
      exact List.mem_map_of_mem _ hr
    simp [decide_eq_decide, Finset.mem_inter, hmem]
  · intro hne
    obtain ⟨h1, h2⟩ := (validate_valid_iff resume catalog).mp hv
    rw [load_session_of_valid s hv]
    simpa using validate_msg_of_unmatched h1 h2 hne

/-- C8 witness: resuming a one-item catalog from a two-row file (one
matching row, one with the absent id "I9") keeps only in-catalog judgments,
stores as many judgments as there are matching input rows, and reports one
distinct unmatched id. -/
theorem c8_witness :
    (∀ j ∈ (load_session ["I1"]
        ⟨{"coding_id", "coder_name", "classification"},
         [⟨"I1", "Bob", "flat", ""⟩, ⟨"I9", "Bob", "flat", ""⟩]⟩
        initialize_session_state).1.results, j.coding_id ∈ ["I1"]) ∧
    (load_session ["I1"]
        ⟨{"coding_id", "coder_name", "classification"},
         [⟨"I1", "Bob", "flat", ""⟩, ⟨"I9", "Bob", "flat", ""⟩]⟩
        initialize_session_state).1.results.length =
      (([⟨"I1", "Bob", "flat", ""⟩, ⟨"I9", "Bob", "flat", ""⟩] : List Judgment).filter
        (fun r => r.coding_id ∈ (["I1"] : List String).toFinset)).length ∧
    (load_session ["I1"]
        ⟨{"coding_id", "coder_name", "classification"},
         [⟨"I1", "Bob", "flat", ""⟩, ⟨"I9", "Bob", "flat", ""⟩]⟩
        initialize_session_state).2.2 =
      .warningUnmatched
        ((([⟨"I1", "Bob", "flat", ""⟩, ⟨"I9", "Bob", "flat", ""⟩] : List Judgment).map
            (·.coding_id)).toFinset \ (["I1"] : List String).toFinset).card :=
  ⟨(c8_amended ["I1"]
      ⟨{"coding_id", "coder_name", "classification"},
       [⟨"I1", "Bob", "flat", ""⟩, ⟨"I9", "Bob", "flat", ""⟩]⟩
      initialize_session_state (by decide)).1,
   (c8_amended ["I1"]
      ⟨{"coding_id", "coder_name", "classification"},
       [⟨"I1", "Bob", "flat", ""⟩, ⟨"I9", "Bob", "flat", ""⟩]⟩
      initialize_session_state (by decide)).2.1,
   (c8_amended ["I1"]
      ⟨{"coding_id", "coder_name", "classification"},
       [⟨"I1", "Bob", "flat", ""⟩, ⟨"I9", "Bob", "flat", ""⟩]⟩
      initialize_session_state (by decide)).2.2 (by decide)⟩

/-- C9 counterexample: a resume import whose matching row carries the
out-of-set classification "banana" succeeds and puts that judgment into the
store — the import path never checks the classification value, so an
out-of-set category does enter the store. -/
theorem c9_counterexample :
    (load_session ["I1", "I2"]
        ⟨{"coding_id", "coder_name", "classification"}, [⟨"I1", "Bob", "banana", ""⟩]⟩
        initialize_session_state).2.1 = true ∧
    (⟨"I1", "Bob", "banana", ""⟩ : Judgment) ∈
      (load_session ["I1", "I2"]
        ⟨{"coding_id", "coder_name", "classification"}, [⟨"I1", "Bob", "banana", ""⟩]⟩
        initialize_session_state).1.results ∧
    "banana" ∉ categories := by
  decide

/-- C9 (amended): the save handler performs no category validation — it
stores whatever classification value it is given (in the UI this value can
only come from the closed-choice radio, and no InvalidCategoryError exists);
the resume import accepts every row whose id matches regardless of its
classification, so out-of-set values can enter the store; only the display
default falls back to index 3 ("none") when the stored classification is
outside the closed set. -/
theorem c9_amended (catalog : List String) (cn cl no : String) (s : SessionState)
    (resume : ResumeCSV) (r : Judgment) (hr : r ∈ resume.rows)
    (hm : r.coding_id ∈ (validate_resume_csv resume catalog).2.2)
    (hv : (validate_resume_csv resume catalog).1 = true) :
    get_previous_coding (catalog.getD s.current_index "")
        (save catalog cn cl no s).results =
      some ⟨catalog.getD s.current_index "", s.locked_coder_name.getD cn, cl, no⟩ ∧
    r ∈ (load_session catalog resume s).1.results ∧
    (∀ p : Judgment, p.classification ∉ categories → default_idx (some p) = 3) := by
  refine ⟨?_, ?_, ?_⟩
  · simpa [save] using get_previous_coding_upsert
      ⟨catalog.getD s.current_index "", s.locked_coder_name.getD cn, cl, no⟩ s.results
  · simp only [load_session_of_valid s hv, resumedState_results, acceptedRows]
    rw [List.mem_filter]
    exact ⟨hr, by simpa using hm⟩
  · intro p hp
    simp [default_idx, hp]

/-- C9 witness: a save with the out-of-set category "banana" is stored
without any error; an imported row with classification "banana" lands in the
store; and the display default for a stored "banana" classification is index
3 ("none"). -/
theorem c9_witness :
    get_previous_coding "I1"
        (save ["I1"] "Alice" "banana" "" initialize_session_state).results =
      some ⟨"I1", "Alice", "banana", ""⟩ ∧
    (⟨"I1", "Bob", "banana", ""⟩ : Judgment) ∈
      (load_session ["I1"]
        ⟨{"coding_id", "coder_name", "classification"}, [⟨"I1", "Bob", "banana", ""⟩]⟩
        initialize_session_state).1.results ∧
    default_idx (some ⟨"I1", "Bob", "banana", ""⟩) = 3 := by
  have h := c9_amended ["I1"] "Alice" "banana" "" initialize_session_state
    ⟨{"coding_id", "coder_name", "classification"}, [⟨"I1", "Bob", "banana", ""⟩]⟩
    ⟨"I1", "Bob", "banana", ""⟩ (by decide) (by decide) (by decide)
  refine ⟨?_, h.2.1, h.2.2 ⟨"I1", "Bob", "banana", ""⟩ (by decide)⟩
  simpa [initialize_session_state] using h.1

/-- C10: after every operation sequence — initialization, saves, PREV /
NEXT / GOTO navigation, and resume imports whether they succeed or fail —
the coded-id set equals exactly the set of `coding_id` values occurring in
the results list. -/
theorem c10_invariant (catalog : List String) (es : List Event) :
    (run catalog es).coded_ids = (resultIds (run catalog es).results).toFinset := by
  have h : storeConsistent (run catalog es) := by
    unfold run
    exact foldl_step_preserve catalog storeConsistent es
      (fun s e _ hs => step_storeConsistent catalog s e hs)
      initialize_session_state
      (by simp [storeConsistent, initialize_session_state, resultIds])
  exact h
